import Mathlib

/-!
Shallow embedding of the HTTP-Server repository (Rust) in Lean 4.

The embedding covers:
* `src/router.rs`  — `Route`, `Router`, path matching and parameter binding;
* `src/server.rs`  — `read_head`, `handle_connection` and the dispatch
  closure submitted to the worker pool in `Server::start`;
* `src/api_err.rs` — the `ApiErr` taxonomy, its `http_status` mapping and
  its `Display` implementation;
* `src/http_method.rs`, `src/http_status.rs`, `src/http_request.rs`;
* `src/utils/mock_stream.rs` — the in-repo `Read` implementation used by the
  parser tests (`read_exact` over a byte buffer with a cursor);
* `src/utils/thread_pool.rs` — the per-worker message loop.

Strings are modelled as `List Char` for the wire-level code (Rust
`from_utf8_lossy` is modelled as the identity on the character level, which
is faithful on the ASCII inputs all claims use); router-level path segments
are Lean `String`s, mirroring `Vec<String>` in `Route`.
-/

/-- The character `{` (written via its code point to keep brace characters out
of literals). -/
def lbrace : Char := Char.ofNat 123

/-- The character `}`. -/
def rbrace : Char := Char.ofNat 125

/-- ASCII fragment of Rust `char::is_whitespace` (the White_Space property);
the inputs of this development are ASCII, where the two notions agree. -/
def rustIsWhitespace (c : Char) : Bool :=
  c == ' ' || c == '\t' || c == '\n' || c == '\x0b' || c == '\x0c' || c == '\r'

/-- Rust `str::trim_start_matches(p)` for a one-character pattern `p`:
removes every leading occurrence of the character. -/
def trimStartChar (c : Char) (cs : List Char) : List Char :=
  cs.dropWhile (· == c)

/-- Rust `str::trim_end_matches(p)` for a one-character pattern `p`. -/
def trimEndChar (c : Char) (cs : List Char) : List Char :=
  (cs.reverse.dropWhile (· == c)).reverse

/-- Rust `str::trim`: drop whitespace from both ends. -/
def rustTrim (cs : List Char) : List Char :=
  ((cs.dropWhile rustIsWhitespace).reverse.dropWhile rustIsWhitespace).reverse

/-- Rust `str::split(c)` for a one-character separator: keeps empty pieces,
`""` yields `[[]]`. -/
def splitChar (c : Char) : List Char → List (List Char)
  | [] => [[]]
  | a :: rest =>
    if a == c then [] :: splitChar c rest
    else
      match splitChar c rest with
      | [] => [[a]]
      | g :: gs => (a :: g) :: gs

/-- Rust `str::split("\r\n")`: split on the two-character sequence CRLF,
keeping empty pieces. -/
def splitCRLF : List Char → List (List Char)
  | [] => [[]]
  | '\r' :: '\n' :: rest => [] :: splitCRLF rest
  | a :: rest =>
    match splitCRLF rest with
    | [] => [[a]]
    | g :: gs => (a :: g) :: gs

/-- Split on a character predicate, keeping empty pieces (helper for
`split_whitespace`). -/
def splitPred (p : Char → Bool) : List Char → List (List Char)
  | [] => [[]]
  | a :: rest =>
    if p a then [] :: splitPred p rest
    else
      match splitPred p rest with
      | [] => [[a]]
      | g :: gs => (a :: g) :: gs

/-- Rust `str::split_whitespace`: split on whitespace runs, discarding empty
pieces. -/
def splitWhitespace (cs : List Char) : List (List Char) :=
  (splitPred rustIsWhitespace cs).filter (· ≠ [])

/-- Rust `str::split_once(":")`: split at the first colon, `none` if absent. -/
def splitOnceColon : List Char → Option (List Char × List Char)
  | [] => none
  | ':' :: rest => some ([], rest)
  | a :: rest =>
    match splitOnceColon rest with
    | none => none
    | some (k, v) => some (a :: k, v)

/-- `HashMap::insert` modelled on an association list: overwrite the value in
place if the key is present, else append.  With `lookupAssoc` (first match)
this reproduces `HashMap` reads where the last write wins. -/
def insertAssoc {α β : Type} [BEq α] : List (α × β) → α → β → List (α × β)
  | [], k, v => [(k, v)]
  | (k', v') :: rest, k, v =>
    if k' == k then (k, v) :: rest else (k', v') :: insertAssoc rest k v

/-- `HashMap::get` modelled on the association list: first match. -/
def lookupAssoc {α β : Type} [BEq α] : List (α × β) → α → Option β
  | [], _ => none
  | (k', v') :: rest, k => if k' == k then some v' else lookupAssoc rest k

/-- Rust `"…".parse::<usize>()`: optional leading `+`, then one or more
decimal digits, rejecting values above `usize::MAX` (64-bit). -/
def parseUsize (cs : List Char) : Option Nat :=
  let ds := match cs with
    | '+' :: rest => rest
    | _ => cs
  if ds.isEmpty then none
  else if ds.all (·.isDigit) then
    let v := ds.foldl (fun a c => a * 10 + (c.toNat - 48)) 0
    if v < 2 ^ 64 then some v else none
  else none

/-- `HttpMethod` from `src/http_method.rs`. -/
inductive HttpMethod
  | Get
  | Post
  | Put
  | Delete
  | Patch
  deriving DecidableEq, Repr

/-- `HttpStatus` from `src/http_status.rs`. -/
inductive HttpStatus
  | Ok
  | Created
  | NoContent
  | BadRequest
  | NotFound
  | Conflict
  | UnprocessableEntity
  | InternalServerError
  deriving DecidableEq, Repr

/-- An `std::io::Error` reduced to its display message (the only part the
code observes). -/
structure IoErr where
  msg : List Char
  deriving DecidableEq, Repr

/-- `ApiErr` from `src/api_err.rs`. -/
inductive ApiErr
  | InternalError (msg : List Char)
  | InvalidMethod
  | MediaTypeNotSupported
  | StreamError (err : IoErr)
  | Conflict (msg : List Char)
  | InvalidRequest
  deriving DecidableEq, Repr

/-- `ApiErr::http_status` (src/api_err.rs lines 16–25). -/
def ApiErr.http_status : ApiErr → HttpStatus
  | .StreamError _ => .InternalServerError
  | .InternalError _ => .InternalServerError
  | .MediaTypeNotSupported => .BadRequest
  | .InvalidMethod => .BadRequest
  | .Conflict _ => .Conflict
  | .InvalidRequest => .BadRequest

/-- The `Display` impl of `ApiErr` (src/api_err.rs lines 35–47). -/
def ApiErr.display : ApiErr → List Char
  | .StreamError err => err.msg
  | .InternalError msg => msg
  | .MediaTypeNotSupported => "Media type not supported.".data
  | .InvalidMethod => "Invalid method.".data
  | .Conflict msg => msg ++ " already exists!".data
  | .InvalidRequest => "Invalid request.".data

/-- `HttpMethod::from_string` (src/http_method.rs lines 15–24). -/
def HttpMethod.from_string (verb : List Char) : Except ApiErr HttpMethod :=
  if verb = "GET".data then .ok .Get
  else if verb = "POST".data then .ok .Post
  else if verb = "PUT".data then .ok .Put
  else if verb = "DELETE".data then .ok .Delete
  else if verb = "PATCH".data then .ok .Patch
  else .error .InvalidMethod

/-- `MockTcpStream` from `src/utils/mock_stream.rs`: a byte buffer with a
read cursor (bytes modelled as characters) plus the captured write side. -/
structure MockTcpStream where
  read_data : List Char
  position : Nat
  write_data : List Char
  deriving DecidableEq, Repr

/-- Bytes not yet consumed by the cursor. -/
def MockTcpStream.remaining (st : MockTcpStream) : Nat :=
  st.read_data.length - st.position

/-- `MockTcpStream::read_exact` (src/utils/mock_stream.rs lines 19–31): error
when fewer than `n` bytes remain, otherwise yield the next `n` bytes and
advance the cursor by `n`. -/
def MockTcpStream.read_exact (st : MockTcpStream) (n : Nat) :
    Except IoErr (List Char × MockTcpStream) :=
  if n > st.remaining then
    .error ⟨"not enough data in MockTcpStream".data⟩
  else
    .ok ((st.read_data.drop st.position).take n,
      { st with position := st.position + n })

/-- `HttpRequest` from `src/http_request.rs`. -/
structure HttpRequest where
  method : HttpMethod
  path : List Char
  headers : List (List Char × List Char)
  body : List Char
  deriving DecidableEq, Repr

/-- One pass of the head-reading loop of `Server::read_head`
(src/server.rs lines 68–83), with explicit fuel: read one byte, append it to
the buffer, stop when the buffer ends in CRLFCRLF.  `none` means the fuel ran
out; `read_head_fuel_sufficient` below shows fuel `remaining + 1` never does. -/
def readHeadAux : Nat → MockTcpStream → List Char →
    Option (Except ApiErr (List Char × MockTcpStream))
  | 0, _, _ => none
  | fuel + 1, st, buffer =>
    match st.read_exact 1 with
    | .error e => some (.error (.StreamError e))
    | .ok (bs, st') =>
      let buffer' := buffer ++ bs
      if ['\r', '\n', '\r', '\n'].isSuffixOf buffer' then
        some (.ok (rustTrim buffer', st'))
      else
        readHeadAux fuel st' buffer'

/-- `Server::read_head` (src/server.rs lines 68–83): run the loop with fuel
`remaining + 1` (proved sufficient); on success the buffer is decoded
(`from_utf8_lossy`, identity here) and trimmed. -/
def read_head (st : MockTcpStream) : Except ApiErr (List Char × MockTcpStream) :=
  match readHeadAux (st.remaining + 1) st [] with
  | some r => r
  | none => .error (.InternalError "head loop fuel exhausted".data)

/-- The header-collection loop of `Server::handle_connection`
(src/server.rs lines 95–101): split each line at the first `:`, skip lines
without one, trim the value, insert with overwrite. -/
def collectHeaders (ls : List (List Char)) : List (List Char × List Char) :=
  ls.foldl
    (fun hs line =>
      match splitOnceColon line with
      | none => hs
      | some (k, v) => insertAssoc hs k (rustTrim v))
    []

/-- `Server::handle_connection` (src/server.rs lines 85–119): read the head,
split it into lines, parse the start line, collect headers, read exactly
`Content-Length` body bytes if that header is present, then validate the
method.  Returns the request together with the stream (cursor advanced past
what was consumed). -/
def handle_connection (st : MockTcpStream) :
    Except ApiErr (HttpRequest × MockTcpStream) :=
  match read_head st with
  | .error e => .error e
  | .ok (head, st₁) =>
    match splitCRLF head with
    | [] => .error (.InternalError "unreachable: split is never empty".data)
    | startLine :: rest =>
      match (splitWhitespace startLine).get? 0 with
      | none => .error .InvalidRequest
      | some verb =>
        match (splitWhitespace startLine).get? 1 with
        | none => .error .InvalidRequest
        | some path =>
          match lookupAssoc (collectHeaders rest) "Content-Length".data with
          | some cl =>
            match parseUsize cl with
            | none => .error .InvalidRequest
            | some n =>
              match st₁.read_exact n with
              | .error e => .error (.StreamError e)
              | .ok (bs, st₂) =>
                match HttpMethod.from_string verb with
                | .error e => .error e
                | .ok method =>
                  .ok (⟨method, path, collectHeaders rest, bs⟩, st₂)
          | none =>
            match HttpMethod.from_string verb with
            | .error e => .error e
            | .ok method =>
              .ok (⟨method, path, collectHeaders rest, []⟩, st₁)

/-- `Route` from `src/router.rs`; the handler function pointer is modelled as
an opaque numeric identifier. -/
structure Route where
  method : HttpMethod
  path : List String
  handler : Nat
  deriving DecidableEq, Repr

/-- The parameter-segment test used in `compare_path_at` and
`set_path_params`: `starts_with("{") && ends_with("}")`. -/
def isParamSeg (s : String) : Bool :=
  (s.data.head? == some lbrace) && (s.data.getLast? == some rbrace)

/-- The parameter-name extraction of `set_path_params`
(src/router.rs lines 88–91): `trim_start_matches("{").trim_end_matches("}")`. -/
def paramName (s : String) : String :=
  ⟨trimEndChar rbrace (trimStartChar lbrace s.data)⟩

/-- `Route::new` (src/router.rs lines 16–24): trim trailing then leading `/`,
split on `/`. -/
def Route.new (method : HttpMethod) (path : String) (handler : Nat) : Route :=
  { method := method
    path := (splitChar '/' (trimStartChar '/' (trimEndChar '/' path.data))).map
      (fun cs => ⟨cs⟩)
    handler := handler }

/-- `Route::compare_path_at` (src/router.rs lines 44–54). -/
def Route.compare_path_at (r : Route) (seg : String) (index : Nat) : Bool :=
  if r.path.length ≤ index then false
  else if isParamSeg (r.path.getD index "") then true
  else r.path.getD index "" == seg

/-- `Route::matches` (src/router.rs lines 70–80): count the positions where
the pattern segment is byte-equal to the incoming segment (iterating the
pattern, looking up the incoming path, so the count runs over the shorter of
the two — exactly `zip`). -/
def Route.matches (r : Route) (path : List String) : Nat :=
  (r.path.zip path).countP (fun p => p.1 == p.2)

/-- The body of `Route::set_path_params` (src/router.rs lines 83–97),
iterating the incoming path with an index and reading `self.path[i]`; the Rust
indexing panics when `i` is out of bounds, modelled by `none`. -/
def setPathParamsAux (rpath : List String) :
    List String → Nat → List (String × String) →
    Option (List (String × String))
  | [], _, params => some params
  | p :: rest, i, params =>
    match rpath.get? i with
    | none => none
    | some s =>
      if isParamSeg s then
        setPathParamsAux rpath rest (i + 1) (insertAssoc params (paramName s) p)
      else
        setPathParamsAux rpath rest (i + 1) params

/-- `Route::set_path_params` (src/router.rs lines 83–97), returning the
parameter map written into the context (`none` models the out-of-bounds
panic). -/
def Route.set_path_params (r : Route) (path : List String) :
    Option (List (String × String)) :=
  setPathParamsAux r.path path 0 []

/-- `Router` from `src/router.rs`: the registered routes in registration
order. -/
structure Router where
  routes : List Route
  deriving DecidableEq, Repr

/-- The position-filter loop of `Router::get_route`
(src/router.rs lines 164–169): retain at each position, with the early
`return None` modelled by propagating the empty list. -/
def getRouteAux : List Route → List String → Nat → List Route
  | rs, [], _ => rs
  | rs, p :: rest, i =>
    let rs' := rs.filter (fun r => r.compare_path_at p i)
    if rs'.isEmpty then [] else getRouteAux rs' rest (i + 1)

/-- Rust `Iterator::max_by` keyed by `Route::matches`
(src/router.rs line 171): left fold keeping the current maximum, the later
element winning ties. -/
def maxByMatches (path : List String) (rs : List Route) : Option Route :=
  rs.foldl
    (fun acc r =>
      match acc with
      | none => some r
      | some m => if m.matches path ≤ r.matches path then some r else some m)
    none

/-- `Router::get_route` (src/router.rs lines 161–172). -/
def Router.get_route (router : Router) (method : HttpMethod)
    (path : List String) : Option Route :=
  let r := router.routes.filter
    (fun r => r.method == method && r.path.length == path.length)
  maxByMatches path (getRouteAux r path 0)

/-- The path normalization of `Router::handle_request`
(src/router.rs lines 176–181): trim trailing then leading `/`, split on `/`. -/
def normalizePath (path : String) : List String :=
  (splitChar '/' (trimStartChar '/' (trimEndChar '/' path.data))).map
    (fun cs => ⟨cs⟩)

/-- The response produced by one terminal write of a `Context`: status,
response headers in insertion order, and the body handed to `send_response`. -/
structure ResponseOut where
  status : HttpStatus
  headers : List (String × String)
  body : List Char
  deriving DecidableEq, Repr

/-- `Context::string` (src/context.rs lines 59–63): set
`Content-Type: text/plain` and `Content-Length`, then perform the terminal
write with the given status and body. -/
def contextString (status : HttpStatus) (body : List Char) : ResponseOut :=
  { status := status
    headers := insertAssoc
      (insertAssoc [] "Content-Type" "text/plain") "Content-Length"
      (toString body.length)
    body := body }

/-- Outcome of the closure `Server::start` submits per connection
(src/server.rs lines 45–62): either the parsed request is handed to the
router, or the error path writes a response via `ctx.string`. -/
inductive DispatchOutcome
  | handled (request : HttpRequest) (st : MockTcpStream)
  | errorResponse (r : ResponseOut)
  deriving DecidableEq, Repr

/-- The per-connection dispatch of `Server::start` (src/server.rs lines
45–62): on parse failure the error is converted with
`ctx.string(HttpStatus::BadRequest, &e.to_string())`. -/
def dispatchConnection (st : MockTcpStream) : DispatchOutcome :=
  match handle_connection st with
  | .ok (request, st') => .handled request st'
  | .error e => .errorResponse (contextString HttpStatus.BadRequest e.display)

/-- A unit of work handed to the pool, reduced to what the worker loop
observes: an identifier and whether executing it panics. -/
structure Job where
  id : Nat
  panics : Bool
  deriving DecidableEq, Repr

/-- How a worker thread ends. -/
inductive WorkerExit
  | channelClosed
  | panicked
  deriving DecidableEq, Repr

/-- The worker loop of `ThreadPool::new` (src/utils/thread_pool.rs lines
28–46) on the sequence of jobs this worker receives before the channel
closes: `recv` errors once the list is exhausted (sender dropped) and the
worker breaks; on `Ok(job)` the loop calls `job()` with no `catch_unwind`,
so a panic unwinds out of the loop and terminates the thread.  (The
lock-poisoned branch cannot fire from a job panic: the receiver lock is
released before `job()` runs.)  Returns the ids of the jobs that actually
executed and how the worker exited. -/
def workerLoop : List Job → List Nat × WorkerExit
  | [] => ([], .channelClosed)
  | j :: rest =>
    if j.panics then ([j.id], .panicked)
    else
      let (ids, ex) := workerLoop rest
      (j.id :: ids, ex)

/-- Modelled from the spec: the count of literal (non-parameter) segment
matches of a route against an incoming path — positions where the pattern
segment is not a `{...}` parameter and is byte-equal to the incoming
segment.  (The code's `Route::matches` counts raw byte-equality instead;
the two differ exactly when an incoming segment literally equals a
parameter segment's text.) -/
def literalMatchCount (r : Route) (path : List String) : Nat :=
  (r.path.zip path).countP (fun p => !isParamSeg p.1 && p.1 == p.2)

/-- A route survives the position-filter loop of `get_route` from position
`i` on: `compare_path_at` holds at every remaining position. -/
def survivesFrom (r : Route) : List String → Nat → Bool
  | [], _ => true
  | p :: rest, i => r.compare_path_at p i && survivesFrom r rest (i + 1)

/-- The candidate set `get_route` hands to `max_by`: routes of the right
method and segment count that survive every position filter. -/
def Router.survivors (router : Router) (method : HttpMethod)
    (path : List String) : List Route :=
  getRouteAux
    (router.routes.filter
      (fun r => r.method == method && r.path.length == path.length))
    path 0

theorem getRouteAux_eq_filter (segs : List String) :
    ∀ (rs : List Route) (i : Nat),
      getRouteAux rs segs i = rs.filter (fun r => survivesFrom r segs i) := by
  induction segs with
  | nil =>
    intro rs i
    simp [getRouteAux, survivesFrom]
  | cons p rest ih =>
    intro rs i
    simp only [getRouteAux]
    by_cases hemp : (rs.filter (fun r => r.compare_path_at p i)).isEmpty
    · rw [if_pos hemp]
      rw [List.isEmpty_iff] at hemp
      have hnil : rs.filter (fun r => survivesFrom r (p :: rest) i) = [] := by
        rw [List.filter_eq_nil_iff]
        intro a ha hsurv
        have : a ∈ rs.filter (fun r => r.compare_path_at p i) := by
          rw [List.mem_filter]
          simp only [survivesFrom, Bool.and_eq_true] at hsurv
          exact ⟨ha, hsurv.1⟩
        rw [hemp] at this
        exact absurd this (List.not_mem_nil a)
      exact hnil.symm
    · rw [if_neg hemp]
      rw [ih]
      rw [List.filter_filter]
      apply List.filter_congr
      intro a _
      simp only [survivesFrom]
      rw [Bool.and_comm]

theorem maxByMatches_foldl_le (path : List String) :
    ∀ (rs : List Route) (acc : Option Route) (w : Route),
      rs.foldl
        (fun acc r =>
          match acc with
          | none => some r
          | some m =>
            if m.matches path ≤ r.matches path then some r else some m)
        acc = some w →
      (∀ r ∈ rs, r.matches path ≤ w.matches path) ∧
        (∀ m, acc = some m → m.matches path ≤ w.matches path) := by
  intro rs
  induction rs with
  | nil =>
    intro acc w h
    simp only [List.foldl_nil] at h
    refine ⟨by simp, ?_⟩
    intro m hm
    rw [hm] at h
    cases h
    exact le_refl _
  | cons r rest ih =>
    intro acc w h
    simp only [List.foldl_cons] at h
    obtain ⟨h1, h2⟩ := ih _ w h
    have hr : r.matches path ≤ w.matches path := by
      cases acc with
      | none => exact h2 r rfl
      | some m =>
        by_cases hle : m.matches path ≤ r.matches path
        · exact h2 r (by simp [hle])
        · exact le_trans (le_of_not_le hle) (h2 m (by simp [hle]))
    refine ⟨?_, ?_⟩
    · intro r' hr'
      rcases List.mem_cons.mp hr' with h' | h'
      · rw [h']; exact hr
      · exact h1 r' h'
    · intro m hm
      subst hm
      by_cases hle : m.matches path ≤ r.matches path
      · exact le_trans hle hr
      · exact h2 m (by simp [hle])

theorem maxByMatches_foldl_mem (path : List String) :
    ∀ (rs : List Route) (acc : Option Route) (w : Route),
      rs.foldl
        (fun acc r =>
          match acc with
          | none => some r
          | some m =>
            if m.matches path ≤ r.matches path then some r else some m)
        acc = some w →
      w ∈ rs ∨ acc = some w := by
  intro rs
  induction rs with
  | nil =>
    intro acc w h
    simp only [List.foldl_nil] at h
    exact Or.inr h
  | cons r rest ih =>
    intro acc w h
    simp only [List.foldl_cons] at h
    rcases ih _ w h with hmem | hacc
    · exact Or.inl (List.mem_cons_of_mem r hmem)
    · cases acc with
      | none =>
        simp only at hacc
        cases hacc
        exact Or.inl (List.mem_cons_self r rest)
      | some m =>
        by_cases hle : m.matches path ≤ r.matches path
        · simp only [if_pos hle] at hacc
          cases hacc
          exact Or.inl (List.mem_cons_self r rest)
        · simp only [if_neg hle] at hacc
          exact Or.inr hacc

theorem maxByMatches_foldl_last (path : List String) :
    ∀ (rs : List Route) (acc : Option Route) (w : Route),
      rs.foldl
        (fun acc r =>
          match acc with
          | none => some r
          | some m =>
            if m.matches path ≤ r.matches path then some r else some m)
        acc = some w →
      (∃ l₁ l₂, rs = l₁ ++ w :: l₂ ∧
        ∀ r ∈ l₂, r.matches path < w.matches path) ∨
      (acc = some w ∧ ∀ r ∈ rs, r.matches path < w.matches path) := by
  intro rs
  induction rs with
  | nil =>
    intro acc w h
    simp only [List.foldl_nil] at h
    exact Or.inr ⟨h, by simp⟩
  | cons r rest ih =>
    intro acc w h
    simp only [List.foldl_cons] at h
    rcases ih _ w h with ⟨l₁, l₂, heq, hlt⟩ | ⟨hacc, hlt⟩
    · exact Or.inl ⟨r :: l₁, l₂, by rw [heq]; simp, hlt⟩
    · cases acc with
      | none =>
        simp only at hacc
        cases hacc
        exact Or.inl ⟨[], rest, rfl, hlt⟩
      | some m =>
        by_cases hle : m.matches path ≤ r.matches path
        · simp only [if_pos hle] at hacc
          cases hacc
          exact Or.inl ⟨[], rest, rfl, hlt⟩
        · simp only [if_neg hle] at hacc
          cases hacc
          refine Or.inr ⟨rfl, ?_⟩
          intro r' hr'
          rcases List.mem_cons.mp hr' with h' | h'
          · rw [h']; exact lt_of_not_le hle
          · exact hlt r' h'

/-- Unfolding of `Router.get_route` through the candidate set. -/
theorem get_route_eq_maxBy (router : Router) (method : HttpMethod)
    (path : List String) :
    router.get_route method path =
      maxByMatches path (router.survivors method path) := by
  rfl

/-- A route returned by `get_route` belongs to the candidate set. -/
theorem get_route_mem_survivors {router : Router} {method : HttpMethod}
    {path : List String} {w : Route}
    (h : router.get_route method path = some w) :
    w ∈ router.survivors method path := by
  rw [get_route_eq_maxBy] at h
  rcases maxByMatches_foldl_mem path _ none w h with hmem | hacc
  · exact hmem
  · cases hacc

/-- Membership in the candidate set, unfolded to its defining conditions. -/
theorem mem_survivors_iff {router : Router} {method : HttpMethod}
    {path : List String} {r : Route} :
    r ∈ router.survivors method path ↔
      r ∈ router.routes ∧ r.method = method ∧
        r.path.length = path.length ∧ survivesFrom r path 0 = true := by
  unfold Router.survivors
  rw [getRouteAux_eq_filter]
  rw [List.mem_filter, List.mem_filter]
  constructor
  · rintro ⟨⟨hmem, hcond⟩, hsurv⟩
    simp only [Bool.and_eq_true, beq_iff_eq] at hcond
    exact ⟨hmem, hcond.1, hcond.2, hsurv⟩
  · rintro ⟨hmem, hm, hl, hsurv⟩
    refine ⟨⟨hmem, ?_⟩, hsurv⟩
    simp only [Bool.and_eq_true, beq_iff_eq]
    exact ⟨hm, hl⟩

/-- Any route returned by `get_route` has the incoming path's segment
count (shared helper for several claims). -/
theorem get_route_some_length {router : Router} {method : HttpMethod}
    {path : List String} {r : Route}
    (h : router.get_route method path = some r) :
    r.path.length = path.length :=
  (mem_survivors_iff.mp (get_route_mem_survivors h)).2.2.1

/-- The route returned by `get_route` maximises `Route::matches` over the
candidate set (shared helper). -/
theorem get_route_maximal {router : Router} {method : HttpMethod}
    {path : List String} {w : Route}
    (h : router.get_route method path = some w) :
    ∀ r ∈ router.survivors method path,
      r.matches path ≤ w.matches path := by
  rw [get_route_eq_maxBy] at h
  exact (maxByMatches_foldl_le path _ none w h).1

/-- The segment string `{param}` (built from code points to keep braces out
of literals). -/
def segParam : String := ⟨lbrace :: ('p' :: 'a' :: 'r' :: 'a' :: 'm' :: [rbrace])⟩

/-- The segment string `{x}`. -/
def segX : String := ⟨[lbrace, 'x', rbrace]⟩

/-- The segment string `{y}`. -/
def segY : String := ⟨[lbrace, 'y', rbrace]⟩

/-- The segment string `{z}`. -/
def segZ : String := ⟨[lbrace, 'z', rbrace]⟩

/-- The route `GET /test/{param}` as registered through `Route::new`. -/
def routeParamTest : Route := Route.new .Get ⟨"/test/".data ++ segParam.data⟩ 0

/-- The route `GET /test/test` as registered through `Route::new`. -/
def routeLitTest : Route := Route.new .Get "/test/test" 1

/-- C5: a registered route whose pattern has `N` segments is returned by
`route()` only for incoming paths with exactly `N` segments; a prefix or an
extension of the pattern never matches. -/
theorem C5_theorem (router : Router) (method : HttpMethod)
    (path : List String) (r : Route)
    (h : router.get_route method path = some r) :
    r.path.length = path.length :=
  get_route_some_length h

theorem C5_witness :
    Router.get_route ⟨[routeLitTest]⟩ .Get ["test", "test"] =
      some ⟨.Get, ["test", "test"], 1⟩ ∧
    (Route.path ⟨.Get, ["test", "test"], 1⟩).length =
      (["test", "test"] : List String).length :=
  ⟨by decide, C5_theorem ⟨[routeLitTest]⟩ .Get ["test", "test"] ⟨.Get, ["test", "test"], 1⟩ (by decide)⟩

theorem setPathParamsAux_isSome (rpath : List String) :
    ∀ (path : List String) (i : Nat) (params : List (String × String)),
      i + path.length ≤ rpath.length →
      (setPathParamsAux rpath path i params).isSome := by
  intro path
  induction path with
  | nil =>
    intro i params _
    simp [setPathParamsAux]
  | cons p rest ih =>
    intro i params h
    have hi : i < rpath.length := by
      simp only [List.length_cons] at h
      omega
    simp only [setPathParamsAux]
    rw [List.get?_eq_get hi]
    cases hps : isParamSeg (rpath.get ⟨i, hi⟩) with
    | true =>
      simp only [hps, if_true]
      exact ih (i + 1) _ (by simp only [List.length_cons] at h; omega)
    | false =>
      simp only [hps, Bool.false_eq_true, if_false]
      exact ih (i + 1) _ (by simp only [List.length_cons] at h; omega)

/-- C10: `set_path_params` indexes the route's pattern at every position of
the path slice, so it is in bounds whenever the path has no more segments
than the pattern; and every call made from `handle_request` satisfies this,
because `get_route` only returns routes whose segment count equals the
normalized incoming path's. -/
theorem C10_theorem :
    (∀ (r : Route) (path : List String),
      path.length ≤ r.path.length → (r.set_path_params path).isSome) ∧
    (∀ (router : Router) (method : HttpMethod) (raw : String) (r : Route),
      router.get_route method (normalizePath raw) = some r →
      (r.set_path_params (normalizePath raw)).isSome) := by
  constructor
  · intro r path h
    exact setPathParamsAux_isSome r.path path 0 [] (by omega)
  · intro router method raw r h
    have hlen := get_route_some_length h
    exact setPathParamsAux_isSome r.path _ 0 [] (by omega)

theorem C10_witness :
    Router.get_route ⟨[routeParamTest]⟩ .Get (normalizePath "/test/1") =
      some routeParamTest ∧
    (routeParamTest.set_path_params (normalizePath "/test/1")).isSome :=
  ⟨by decide, C10_theorem.2 ⟨[routeParamTest]⟩ .Get "/test/1" routeParamTest (by decide)⟩

/-- C4 counterexample: two registered routes (`GET /{x}` first, `GET /{y}`
second) both survive for path `["a"]` with equal (maximal) match counts, yet
`route()` returns the *second*-registered one, not the first. -/
theorem C4_counterexample :
    Router.survivors ⟨[⟨.Get, [segX], 0⟩, ⟨.Get, [segY], 1⟩]⟩ .Get ["a"] =
      [⟨.Get, [segX], 0⟩, ⟨.Get, [segY], 1⟩] ∧
    Route.matches ⟨.Get, [segX], 0⟩ ["a"] =
      Route.matches ⟨.Get, [segY], 1⟩ ["a"] ∧
    Router.get_route ⟨[⟨.Get, [segX], 0⟩, ⟨.Get, [segY], 1⟩]⟩ .Get ["a"] =
      some ⟨.Get, [segY], 1⟩ ∧
    (⟨.Get, [segY], 1⟩ : Route) ≠ ⟨.Get, [segX], 0⟩ := by
  decide

/-- C4 (amended): when several surviving candidates tie on the maximal match
count, `route()` returns the *last* of them in registration order: the
returned route splits the candidate list so that everything before it has
match count at most its own and everything after it has a strictly smaller
match count. -/
theorem C4_theorem (router : Router) (method : HttpMethod)
    (path : List String) (w : Route)
    (h : router.get_route method path = some w) :
    ∃ l₁ l₂, router.survivors method path = l₁ ++ w :: l₂ ∧
      (∀ r ∈ l₁, r.matches path ≤ w.matches path) ∧
      (∀ r ∈ l₂, r.matches path < w.matches path) := by
  have hmax := get_route_maximal h
  rw [get_route_eq_maxBy] at h
  rcases maxByMatches_foldl_last path _ none w h with ⟨l₁, l₂, heq, hlt⟩ | ⟨habs, _⟩
  · refine ⟨l₁, l₂, heq, ?_, hlt⟩
    intro r hr
    apply hmax
    rw [heq]
    exact List.mem_append_left _ hr
  · cases habs

theorem C4_witness :
    Router.get_route ⟨[⟨.Get, [segX], 0⟩, ⟨.Get, [segY], 1⟩]⟩ .Get ["a"] =
      some ⟨.Get, [segY], 1⟩ ∧
    ∃ l₁ l₂,
      Router.survivors ⟨[⟨.Get, [segX], 0⟩, ⟨.Get, [segY], 1⟩]⟩ .Get ["a"] =
        l₁ ++ (⟨.Get, [segY], 1⟩ : Route) :: l₂ ∧
      (∀ r ∈ l₁, r.matches ["a"] ≤ Route.matches ⟨.Get, [segY], 1⟩ ["a"]) ∧
      (∀ r ∈ l₂, r.matches ["a"] < Route.matches ⟨.Get, [segY], 1⟩ ["a"]) :=
  ⟨by decide, C4_theorem ⟨[⟨.Get, [segX], 0⟩, ⟨.Get, [segY], 1⟩]⟩ .Get ["a"] ⟨.Get, [segY], 1⟩ (by decide)⟩

/-- C2 counterexample: on an empty stream, parsing fails with a pure I/O
(stream) error, yet the dispatcher answers `400 Bad Request` — not the `500`
the claim requires for I/O failures — and the body is the plain error
message, which is not of the JSON shape `\x7b "message": "..." \x7d` (it does
not even start with a brace). -/
theorem C2_counterexample :
    handle_connection ⟨[], 0, []⟩ =
      .error (.StreamError ⟨"not enough data in MockTcpStream".data⟩) ∧
    dispatchConnection ⟨[], 0, []⟩ =
      .errorResponse
        (contextString HttpStatus.BadRequest
          "not enough data in MockTcpStream".data) ∧
    HttpStatus.BadRequest ≠ HttpStatus.InternalServerError ∧
    (contextString HttpStatus.BadRequest
        "not enough data in MockTcpStream".data).body.head? ≠ some lbrace :=
  ⟨rfl, by decide, by decide, by decide⟩

/-- C2 (amended): for every connection on which request parsing fails, the
dispatcher writes a `400 Bad Request` response whatever the error — stream
(I/O) errors included — whose body is the error's plain display message with
`Content-Type: text/plain`, not a JSON-shaped one; `ApiErr::http_status`,
which would map stream errors to `500`, exists but is not consulted by the
dispatcher. -/
theorem C2_theorem :
    (∀ (st : MockTcpStream) (e : ApiErr), handle_connection st = .error e →
      dispatchConnection st =
        .errorResponse (contextString HttpStatus.BadRequest e.display)) ∧
    (∀ err : IoErr,
      (ApiErr.StreamError err).http_status = HttpStatus.InternalServerError) := by
  constructor
  · intro st e h
    unfold dispatchConnection
    rw [h]
  · intro err
    rfl

theorem C2_witness :
    handle_connection ⟨[], 0, []⟩ =
      .error (.StreamError ⟨"not enough data in MockTcpStream".data⟩) ∧
    dispatchConnection ⟨[], 0, []⟩ =
      .errorResponse
        (contextString HttpStatus.BadRequest
          (ApiErr.StreamError ⟨"not enough data in MockTcpStream".data⟩).display) :=
  ⟨rfl,
    C2_theorem.1 ⟨[], 0, []⟩
      (.StreamError ⟨"not enough data in MockTcpStream".data⟩) rfl⟩

/-- C3 counterexample: a worker that receives a panicking job followed by a
normal one executes only the first; the panic is not caught, the worker
terminates by unwinding, and the second job is never executed by it. -/
theorem C3_counterexample :
    workerLoop [⟨0, true⟩, ⟨1, false⟩] = ([0], .panicked) ∧
    1 ∉ (workerLoop [⟨0, true⟩, ⟨1, false⟩]).1 ∧
    (workerLoop [⟨0, true⟩, ⟨1, false⟩]).2 ≠ WorkerExit.channelClosed := by
  decide

/-- C3 (amended): the worker loop does not catch job failures.  A worker
whose jobs all succeed executes every one of them and exits only when the
channel closes; but a panicking job unwinds and terminates its worker thread
immediately, so no job queued behind it on that worker ever executes there. -/
theorem C3_theorem :
    (∀ jobs : List Job, (∀ j ∈ jobs, j.panics = false) →
      workerLoop jobs = (jobs.map Job.id, .channelClosed)) ∧
    (∀ (pre : List Job) (j : Job) (post : List Job),
      (∀ k ∈ pre, k.panics = false) → j.panics = true →
      workerLoop (pre ++ j :: post) = (pre.map Job.id ++ [j.id], .panicked)) := by
  constructor
  · intro jobs
    induction jobs with
    | nil => intro _; rfl
    | cons j rest ih =>
      intro h
      have hj : j.panics = false := h j (List.mem_cons_self j rest)
      have hrest := ih (fun k hk => h k (List.mem_cons_of_mem j hk))
      simp only [workerLoop, hj, Bool.false_eq_true, if_false, hrest,
        List.map_cons]
  · intro pre
    induction pre with
    | nil =>
      intro j post _ hj
      simp only [workerLoop, List.nil_append, hj, if_true, List.map_nil,
        List.nil_append]
    | cons k rest ih =>
      intro j post h hj
      have hk : k.panics = false := h k (List.mem_cons_self k rest)
      have hrest := ih j post (fun k' hk' => h k' (List.mem_cons_of_mem k hk')) hj
      simp only [List.cons_append, workerLoop, hk, Bool.false_eq_true,
        if_false, List.append_eq, hrest, List.map_cons]

theorem C3_witness :
    (∀ k ∈ ([⟨0, false⟩] : List Job), k.panics = false) ∧
    workerLoop ([⟨0, false⟩] ++ (⟨1, true⟩ : Job) :: [⟨2, false⟩]) =
      ([0, 1], .panicked) :=
  ⟨by decide, C3_theorem.2 [⟨0, false⟩] ⟨1, true⟩ [⟨2, false⟩] (by decide) (by decide)⟩

theorem countP_literal_eq (l : List (String × String))
    (h : ∀ p ∈ l, isParamSeg p.1 → p.1 ≠ p.2) :
    l.countP (fun p => !isParamSeg p.1 && p.1 == p.2) =
      l.countP (fun p => p.1 == p.2) := by
  induction l with
  | nil => rfl
  | cons a rest ih =>
    have hrest := ih (fun p hp => h p (List.mem_cons_of_mem a hp))
    by_cases hpar : isParamSeg a.1 = true
    · have hne : a.1 ≠ a.2 := h a (List.mem_cons_self a rest) hpar
      have hbeq : (a.1 == a.2) = false := beq_eq_false_iff_ne.mpr hne
      simp [List.countP_cons, hpar, hbeq, hrest]
    · have hpar' : isParamSeg a.1 = false := eq_false_of_ne_true hpar
      simp [List.countP_cons, hpar', hrest]

/-- When no zipped (pattern segment, incoming segment) pair collides — no
parameter segment's literal text equals the incoming segment at its position
— the code's raw-equality count `Route::matches` coincides with the spec's
literal-match count (shared helper). -/
theorem literalMatchCount_eq_matches {r : Route} {path : List String}
    (h : ∀ p ∈ r.path.zip path, isParamSeg p.1 → p.1 ≠ p.2) :
    literalMatchCount r path = r.matches path :=
  countP_literal_eq (r.path.zip path) h

/-- C1 counterexample: with routes `GET /{x}/a` (registered first) and
`GET /{y}/{z}` (registered second), the incoming path whose first segment is
literally the three characters `{y}` matches both; the first route has
strictly more literal (non-parameter) segment matches (1 vs 0), yet
`route()` selects the second, because `Route::matches` also counts the
byte-equality of the incoming segment `{y}` with the parameter segment
`{y}`, producing a tie that `max_by` breaks toward the later route. -/
theorem C1_counterexample :
    (⟨.Get, [segX, "a"], 0⟩ : Route) ∈
      Router.survivors ⟨[⟨.Get, [segX, "a"], 0⟩, ⟨.Get, [segY, segZ], 1⟩]⟩
        .Get [segY, "a"] ∧
    (⟨.Get, [segY, segZ], 1⟩ : Route) ∈
      Router.survivors ⟨[⟨.Get, [segX, "a"], 0⟩, ⟨.Get, [segY, segZ], 1⟩]⟩
        .Get [segY, "a"] ∧
    literalMatchCount ⟨.Get, [segX, "a"], 0⟩ [segY, "a"] = 1 ∧
    literalMatchCount ⟨.Get, [segY, segZ], 1⟩ [segY, "a"] = 0 ∧
    Router.get_route ⟨[⟨.Get, [segX, "a"], 0⟩, ⟨.Get, [segY, segZ], 1⟩]⟩
        .Get [segY, "a"] = some ⟨.Get, [segY, segZ], 1⟩ ∧
    (⟨.Get, [segY, segZ], 1⟩ : Route) ≠ ⟨.Get, [segX, "a"], 0⟩ := by
  decide

/-- C1 (amended): `route()` maximises `Route::matches` (raw byte-equal
positions).  Whenever no surviving route has a parameter segment whose
literal text equals the incoming segment at its position, this count is the
literal (non-parameter) match count, so no surviving candidate has strictly
more literal matches than the selected route; in particular, with
`/test/{param}` and `/test/test` both registered, `GET /test/test` selects
`/test/test` regardless of registration order. -/
theorem C1_theorem :
    (∀ (router : Router) (method : HttpMethod) (path : List String)
        (w r : Route),
      router.get_route method path = some w →
      r ∈ router.survivors method path →
      (∀ p ∈ r.path.zip path, isParamSeg p.1 → p.1 ≠ p.2) →
      (∀ p ∈ w.path.zip path, isParamSeg p.1 → p.1 ≠ p.2) →
      literalMatchCount r path ≤ literalMatchCount w path) ∧
    Router.get_route ⟨[routeParamTest, routeLitTest]⟩ .Get ["test", "test"] =
      some ⟨.Get, ["test", "test"], 1⟩ ∧
    Router.get_route ⟨[routeLitTest, routeParamTest]⟩ .Get ["test", "test"] =
      some ⟨.Get, ["test", "test"], 1⟩ := by
  refine ⟨?_, by decide, by decide⟩
  intro router method path w r hw hr hcr hcw
  rw [literalMatchCount_eq_matches hcr, literalMatchCount_eq_matches hcw]
  exact get_route_maximal hw r hr

theorem C1_witness :
    Router.get_route ⟨[routeParamTest, routeLitTest]⟩ .Get ["test", "test"] =
      some ⟨.Get, ["test", "test"], 1⟩ ∧
    literalMatchCount routeParamTest ["test", "test"] ≤
      literalMatchCount ⟨.Get, ["test", "test"], 1⟩ ["test", "test"] :=
  ⟨by decide,
    C1_theorem.1 ⟨[routeParamTest, routeLitTest]⟩ .Get ["test", "test"]
      ⟨.Get, ["test", "test"], 1⟩ routeParamTest (by decide) (by decide)
      (by decide) (by decide)⟩

theorem lookupAssoc_insertAssoc_self {α β : Type} [BEq α] [LawfulBEq α]
    (ps : List (α × β)) (k : α) (v : β) :
    lookupAssoc (insertAssoc ps k v) k = some v := by
  induction ps with
  | nil => simp [insertAssoc, lookupAssoc]
  | cons a rest ih =>
    obtain ⟨k', v'⟩ := a
    by_cases h : (k' == k) = true
    · simp [insertAssoc, h, lookupAssoc]
    · simp only [insertAssoc, h, Bool.false_eq_true, if_false, lookupAssoc]
      exact ih

theorem lookupAssoc_insertAssoc_ne {α β : Type} [BEq α] [LawfulBEq α]
    (ps : List (α × β)) (kIns name : α) (v : β) (h : kIns ≠ name) :
    lookupAssoc (insertAssoc ps kIns v) name = lookupAssoc ps name := by
  induction ps with
  | nil =>
    simp only [insertAssoc, lookupAssoc]
    rw [if_neg (by simp [h])]
  | cons a rest ih =>
    obtain ⟨k', v'⟩ := a
    by_cases hk : (k' == kIns) = true
    · have hkeq : k' = kIns := eq_of_beq hk
      simp only [insertAssoc, hk, if_true, lookupAssoc]
      rw [if_neg (by simp [h]), if_neg (by simp [hkeq ▸ h])]
    · simp only [insertAssoc, hk, Bool.false_eq_true, if_false, lookupAssoc]
      by_cases hn : (k' == name) = true
      · rw [if_pos hn, if_pos hn]
      · rw [if_neg hn, if_neg hn, ih]

theorem setPathParamsAux_lookup_preserved (rpath : List String)
    (name v : String) :
    ∀ (path : List String) (i : Nat) (params ps : List (String × String)),
      (∀ j, j < path.length → ∀ s, rpath.get? (i + j) = some s →
        isParamSeg s = true → paramName s ≠ name) →
      lookupAssoc params name = some v →
      setPathParamsAux rpath path i params = some ps →
      lookupAssoc ps name = some v := by
  intro path
  induction path with
  | nil =>
    intro i params ps _ hlook hset
    simp only [setPathParamsAux, Option.some.injEq] at hset
    rw [← hset]
    exact hlook
  | cons p rest ih =>
    intro i params ps hname hlook hset
    simp only [setPathParamsAux] at hset
    cases hg : rpath.get? i with
    | none =>
      simp only [hg] at hset
      exact Option.noConfusion hset
    | some s =>
      simp only [hg] at hset
      have hshift : ∀ j, j < rest.length → ∀ t,
          rpath.get? (i + 1 + j) = some t → isParamSeg t = true →
          paramName t ≠ name := by
        intro j hj t hget hpar
        refine hname (j + 1) (by simp only [List.length_cons]; omega) t ?_ hpar
        rw [show i + (j + 1) = i + 1 + j by omega]
        exact hget
      by_cases hps : isParamSeg s = true
      · rw [if_pos hps] at hset
        have hpn : paramName s ≠ name :=
          hname 0 (by simp) s (by rw [Nat.add_zero]; exact hg) hps
        refine ih (i + 1) _ ps hshift ?_ hset
        rw [lookupAssoc_insertAssoc_ne _ _ _ _ hpn]
        exact hlook
      · rw [if_neg hps] at hset
        exact ih (i + 1) _ ps hshift hlook hset

theorem setPathParamsAux_lookup_param (rpath : List String) (name : String) :
    ∀ (path : List String) (k i : Nat) (params ps : List (String × String))
      (s p : String),
      path.get? k = some p →
      rpath.get? (i + k) = some s →
      isParamSeg s = true →
      paramName s = name →
      (∀ j, k < j → j < path.length → ∀ t, rpath.get? (i + j) = some t →
        isParamSeg t = true → paramName t ≠ name) →
      setPathParamsAux rpath path i params = some ps →
      lookupAssoc ps name = some p := by
  intro path
  induction path with
  | nil =>
    intro k i params ps s p hp _ _ _ _ _
    simp [List.get?] at hp
  | cons q rest ih =>
    intro k i params ps s p hp hs hpar hpn hafter hset
    simp only [setPathParamsAux] at hset
    cases k with
    | zero =>
      have hq : q = p := by
        simp only [List.get?, Option.some.injEq] at hp
        exact hp
      rw [Nat.add_zero] at hs
      simp only [hs, if_pos hpar] at hset
      subst hq hpn
      refine setPathParamsAux_lookup_preserved rpath (paramName s) q rest
        (i + 1) _ ps ?_ ?_ hset
      · intro j hj t hget hpart
        refine hafter (j + 1) (Nat.succ_pos j)
          (by simp only [List.length_cons]; omega) t ?_ hpart
        rw [show i + (j + 1) = i + 1 + j by omega]
        exact hget
      · exact lookupAssoc_insertAssoc_self _ _ _
    | succ k' =>
      cases hg : rpath.get? i with
      | none =>
        simp only [hg] at hset
        exact Option.noConfusion hset
      | some t =>
        simp only [hg] at hset
        have hp' : rest.get? k' = some p := hp
        have hs' : rpath.get? (i + 1 + k') = some s := by
          rw [show i + 1 + k' = i + (k' + 1) by omega]
          exact hs
        have hafter' : ∀ j, k' < j → j < rest.length → ∀ u,
            rpath.get? (i + 1 + j) = some u → isParamSeg u = true →
            paramName u ≠ name := by
          intro j hj hjl u hget hpart
          refine hafter (j + 1) (by omega)
            (by simp only [List.length_cons]; omega) u ?_ hpart
          rw [show i + (j + 1) = i + 1 + j by omega]
          exact hget
        by_cases hpt : isParamSeg t = true
        · rw [if_pos hpt] at hset
          exact ih k' (i + 1) _ ps s p hp' hs' hpar hpn hafter' hset
        · rw [if_neg hpt] at hset
          exact ih k' (i + 1) _ ps s p hp' hs' hpar hpn hafter' hset

theorem isParamSeg_wrapped (name : String) :
    isParamSeg ⟨lbrace :: (name.data ++ [rbrace])⟩ = true := by
  unfold isParamSeg
  rw [show (lbrace :: (name.data ++ [rbrace])) =
    (lbrace :: name.data) ++ [rbrace] by simp]
  rw [List.getLast?_concat]
  simp

/-- For a well-formed parameter segment `\x7bname\x7d` whose name neither
starts with `\x7b` nor ends with `\x7d`, the code's brace-trimming extracts
exactly the text between the braces (shared helper). -/
theorem paramName_of_wrapped (name : String)
    (hh : name.data.head? ≠ some lbrace)
    (hl : name.data.getLast? ≠ some rbrace) :
    paramName ⟨lbrace :: (name.data ++ [rbrace])⟩ = name := by
  unfold paramName trimStartChar trimEndChar
  simp only
  rw [List.dropWhile_cons_of_pos (by simp)]
  have h1 : (name.data ++ [rbrace]).dropWhile (· == lbrace) =
      name.data ++ [rbrace] := by
    cases hn : name.data with
    | nil =>
      simp only [List.nil_append]
      rw [List.dropWhile_cons_of_neg (by decide)]
    | cons c cs =>
      have hc : c ≠ lbrace := by
        intro h
        exact hh (by rw [hn, h]; rfl)
      simp only [List.cons_append]
      rw [List.dropWhile_cons_of_neg (by simp [hc])]
  rw [h1]
  rw [List.reverse_append, List.reverse_singleton, List.singleton_append]
  rw [List.dropWhile_cons_of_pos (by simp)]
  have h2 : name.data.reverse.dropWhile (· == rbrace) = name.data.reverse := by
    cases hr : name.data.reverse with
    | nil => rfl
    | cons c cs =>
      have hc : c ≠ rbrace := by
        intro h
        apply hl
        rw [← List.head?_reverse, hr, h]
        rfl
      rw [List.dropWhile_cons_of_neg (by simp [hc])]
  rw [h2, List.reverse_reverse]

/-- C8: at any position of a pattern, a `\x7b...\x7d` parameter segment
matches any (in particular any non-empty) incoming segment, a literal
segment matches exactly the byte-equal incoming segment, and on a win
`set_path_params` binds the incoming segment's value under the text between
the braces of the winning route's parameter segment (provided, as the spec
requires, no later position carries the same parameter name). -/
theorem C8_theorem :
    (∀ (r : Route) (seg : String) (i : Nat) (h : i < r.path.length),
      isParamSeg (r.path.get ⟨i, h⟩) = true → seg ≠ "" →
      r.compare_path_at seg i = true) ∧
    (∀ (r : Route) (seg : String) (i : Nat) (h : i < r.path.length),
      isParamSeg (r.path.get ⟨i, h⟩) = false →
      r.compare_path_at seg i = (r.path.get ⟨i, h⟩ == seg)) ∧
    (∀ (r : Route) (path : List String) (i : Nat) (name p : String)
        (ps : List (String × String)),
      path.get? i = some p →
      r.path.get? i = some ⟨lbrace :: (name.data ++ [rbrace])⟩ →
      name.data.head? ≠ some lbrace →
      name.data.getLast? ≠ some rbrace →
      (∀ j, i < j → j < path.length → ∀ t, r.path.get? j = some t →
        isParamSeg t = true → paramName t ≠ name) →
      r.set_path_params path = some ps →
      lookupAssoc ps name = some p) := by
  refine ⟨?_, ?_, ?_⟩
  · intro r seg i h hpar _
    unfold Route.compare_path_at
    rw [if_neg (not_le.mpr h)]
    rw [List.getD_eq_get _ _ h, hpar]
    simp
  · intro r seg i h hpar
    unfold Route.compare_path_at
    rw [if_neg (not_le.mpr h)]
    rw [List.getD_eq_get _ _ h, hpar]
    simp
  · intro r path i name p ps hp hs hh hl hafter hset
    refine setPathParamsAux_lookup_param r.path name path i 0 [] ps
      ⟨lbrace :: (name.data ++ [rbrace])⟩ p hp
      (by rw [Nat.zero_add]; exact hs) (isParamSeg_wrapped name)
      (paramName_of_wrapped name hh hl) ?_ hset
    intro j hj hjl t hget hpart
    refine hafter j hj hjl t ?_ hpart
    rw [Nat.zero_add] at hget
    exact hget

theorem C8_witness :
    Route.compare_path_at routeParamTest "42" 1 = true ∧
    lookupAssoc [("param", "42")] "param" = some "42" :=
  ⟨C8_theorem.1 routeParamTest "42" 1 (by decide) (by decide) (by decide),
   C8_theorem.2.2 routeParamTest ["test", "42"] 1 "param" "42"
     [("param", "42")] (by decide) (by decide) (by decide) (by decide)
     (by
       intro j h1 h2
       simp only [List.length_cons, List.length_nil] at h2
       exact absurd h1 (by omega)) (by decide)⟩

theorem readHeadAux_isSome :
    ∀ (fuel : Nat) (st : MockTcpStream) (buffer : List Char),
      st.remaining < fuel → (readHeadAux fuel st buffer).isSome := by
  intro fuel
  induction fuel with
  | zero =>
    intro st buffer h
    exact absurd h (by omega)
  | succ f ih =>
    intro st buffer h
    cases hre : st.read_exact 1 with
    | error e => simp [readHeadAux, hre]
    | ok pr =>
      obtain ⟨bs, st'⟩ := pr
      by_cases hsuf :
          (['\r', '\n', '\r', '\n'].isSuffixOf (buffer ++ bs)) = true
      · simp [readHeadAux, hre, hsuf]
      · simp only [readHeadAux, hre, hsuf, Bool.false_eq_true, if_false]
        apply ih
        unfold MockTcpStream.read_exact at hre
        by_cases hr : 1 > st.remaining
        · rw [if_pos hr] at hre
          exact Except.noConfusion hre
        · rw [if_neg hr] at hre
          simp only [Except.ok.injEq, Prod.mk.injEq] at hre
          obtain ⟨-, hst⟩ := hre
          subst hst
          unfold MockTcpStream.remaining at *
          simp only at *
          omega

/-- C9: the byte-at-a-time head loop of `read_head` terminates on every
finite stream — with fuel exceeding the bytes remaining it always reaches a
CRLFCRLF-terminated buffer or a failing read at end of input (never the
out-of-fuel marker), and `read_head` is exactly the value the loop reaches;
`handle_connection` then performs one bounded body read on top of it, so it
is a total function returning a request or an error. -/
theorem C9_theorem :
    (∀ (fuel : Nat) (st : MockTcpStream) (buffer : List Char),
      st.remaining < fuel → (readHeadAux fuel st buffer).isSome) ∧
    (∀ st : MockTcpStream,
      readHeadAux (st.remaining + 1) st [] = some (read_head st)) := by
  refine ⟨readHeadAux_isSome, ?_⟩
  intro st
  have h := readHeadAux_isSome (st.remaining + 1) st [] (by omega)
  obtain ⟨r, hr⟩ := Option.isSome_iff_exists.mp h
  rw [hr]
  unfold read_head
  rw [hr]

theorem C9_witness :
    (readHeadAux 1 ⟨[], 0, []⟩ []).isSome ∧
    readHeadAux (MockTcpStream.remaining ⟨[], 0, []⟩ + 1) ⟨[], 0, []⟩ [] =
      some (read_head ⟨[], 0, []⟩) :=
  ⟨C9_theorem.1 1 ⟨[], 0, []⟩ [] (by decide), C9_theorem.2 ⟨[], 0, []⟩⟩

/-- C6: whenever the head parses with a `Content-Length` of `n` and at least
`n` bytes remain on the stream after the head terminator, the parser returns
a request whose body is exactly the first `n` of those bytes, and the final
stream cursor sits exactly `n` bytes past the head — bytes beyond the `n`th
are left unread. -/
theorem C6_theorem (st st₁ : MockTcpStream) (head startLine : List Char)
    (restLines : List (List Char)) (verb path cl : List Char)
    (m : HttpMethod) (n : Nat)
    (h1 : read_head st = .ok (head, st₁))
    (h2 : splitCRLF head = startLine :: restLines)
    (h3 : (splitWhitespace startLine).get? 0 = some verb)
    (h4 : (splitWhitespace startLine).get? 1 = some path)
    (h5 : lookupAssoc (collectHeaders restLines) "Content-Length".data =
      some cl)
    (h6 : parseUsize cl = some n)
    (h7 : n ≤ st₁.remaining)
    (h8 : HttpMethod.from_string verb = .ok m) :
    handle_connection st = .ok
      (⟨m, path, collectHeaders restLines,
        (st₁.read_data.drop st₁.position).take n⟩,
      { st₁ with position := st₁.position + n }) := by
  unfold handle_connection
  rw [h1]
  simp only [h2, h3, h4, h5, h6, h8, MockTcpStream.read_exact,
    if_neg (not_lt.mpr h7)]

/-- C7: whenever the head parses with a `Content-Length` of `n` but strictly
fewer than `n` bytes remain on the stream after the head terminator, the
parser fails with a stream (I/O) error — it never returns a request with a
truncated body. -/
theorem C7_theorem (st st₁ : MockTcpStream) (head startLine : List Char)
    (restLines : List (List Char)) (verb path cl : List Char) (n : Nat)
    (h1 : read_head st = .ok (head, st₁))
    (h2 : splitCRLF head = startLine :: restLines)
    (h3 : (splitWhitespace startLine).get? 0 = some verb)
    (h4 : (splitWhitespace startLine).get? 1 = some path)
    (h5 : lookupAssoc (collectHeaders restLines) "Content-Length".data =
      some cl)
    (h6 : parseUsize cl = some n)
    (h7 : st₁.remaining < n) :
    handle_connection st =
      .error (.StreamError ⟨"not enough data in MockTcpStream".data⟩) := by
  unfold handle_connection
  rw [h1]
  simp only [h2, h3, h4, h5, h6, MockTcpStream.read_exact, if_pos h7]

/-- The spec's `Content-Length: 3` / 5-byte `"Hello"` example stream. -/
def streamC6 : MockTcpStream :=
  ⟨("POST / HTTP/1.1\r\nHost: localhost:8080\r\nContent-Length: 3\r\n" ++
    "Content-Type: text/plain\r\n\r\nHello").data, 0, []⟩

/-- The spec's `Content-Length: 5` / 3-bytes-available example stream. -/
def streamC7 : MockTcpStream :=
  ⟨("POST / HTTP/1.1\r\nHost: localhost:8080\r\nContent-Length: 5\r\n" ++
    "Content-Type: text/plain\r\n\r\nHel").data, 0, []⟩

theorem C6_witness :
    read_head streamC6 = .ok
      (("POST / HTTP/1.1\r\nHost: localhost:8080\r\nContent-Length: 3\r\n" ++
        "Content-Type: text/plain").data,
       ⟨streamC6.read_data, 86, []⟩) ∧
    handle_connection streamC6 = .ok
      (⟨.Post, "/".data,
        collectHeaders ["Host: localhost:8080".data, "Content-Length: 3".data,
          "Content-Type: text/plain".data],
        "Hel".data⟩,
      ⟨streamC6.read_data, 89, []⟩) :=
  ⟨rfl,
    C6_theorem streamC6 ⟨streamC6.read_data, 86, []⟩
      (("POST / HTTP/1.1\r\nHost: localhost:8080\r\nContent-Length: 3\r\n" ++
        "Content-Type: text/plain").data)
      ("POST / HTTP/1.1".data)
      ["Host: localhost:8080".data, "Content-Length: 3".data,
        "Content-Type: text/plain".data]
      "POST".data "/".data "3".data .Post 3
      rfl rfl rfl rfl rfl rfl (by decide) rfl⟩

theorem C7_witness :
    read_head streamC7 = .ok
      (("POST / HTTP/1.1\r\nHost: localhost:8080\r\nContent-Length: 5\r\n" ++
        "Content-Type: text/plain").data,
       ⟨streamC7.read_data, 86, []⟩) ∧
    handle_connection streamC7 =
      .error (.StreamError ⟨"not enough data in MockTcpStream".data⟩) :=
  ⟨rfl,
    C7_theorem streamC7 ⟨streamC7.read_data, 86, []⟩
      (("POST / HTTP/1.1\r\nHost: localhost:8080\r\nContent-Length: 5\r\n" ++
        "Content-Type: text/plain").data)
      ("POST / HTTP/1.1".data)
      ["Host: localhost:8080".data, "Content-Length: 5".data,
        "Content-Type: text/plain".data]
      "POST".data "/".data "5".data 5
      rfl rfl rfl rfl rfl rfl (by decide)⟩
